import Mathlib

/-!
Verification of the Consumption Registration & Reconciliation Engine of the
fresas-standalone repository.

The repository ships a Next.js frontend (`frontend/src/app/page.tsx`,
`frontend/src/lib/api.ts`) and deployment scripts; the FastAPI backend that
implements the engine (catalog index, pending queue, reconciliation) is not
part of the available sources, so those components are modelled from the
specification, as indicated on each definition.  The frontend logic
(quantity handling, request payload construction, the API client's error
translation) is embedded directly from the TypeScript source.

Text is modelled as `List Char`; machine integers of the source are `Int`
or `Nat` (no overflow is relevant at these sizes).
-/

namespace Fresas


/-! ### Character-level utilities

`isSpaceChar`, `upperChar` model the whitespace-trimming and case-folding
used for barcode normalization ("case-insensitive and whitespace-trimmed",
spec section 4.1) and by JavaScript `trim()` / `toUpperCase()` for ASCII. -/

def isSpaceChar (c : Char) : Bool :=
  c.toNat = 32 || c.toNat = 9 || c.toNat = 10 || c.toNat = 13

def upperChar (c : Char) : Char :=
  if 97 ≤ c.toNat && c.toNat ≤ 122 then Char.ofNat (c.toNat - 32) else c

def trimLeftChars (s : List Char) : List Char := s.dropWhile isSpaceChar

def trimRightChars (s : List Char) : List Char :=
  (s.reverse.dropWhile isSpaceChar).reverse

def trimChars (s : List Char) : List Char := trimRightChars (trimLeftChars s)

def upperChars (s : List Char) : List Char := s.map upperChar

/-- Modelled from the spec: barcode normalization, "trim plus case folding
to uppercase", applied identically at index-build time and at lookup time
(spec section 4.1); the backend implementing it is not in the sources. -/

def normalizeChars (s : List Char) : List Char := upperChars (trimChars s)

/-! ### Decimal rendering and parsing

Used by the Pending Queue's flat persisted log (spec section 6) and by the
model of JavaScript `parseInt` in the frontend's quantity handlers. -/

def digitChar (n : Nat) : Char := Char.ofNat (48 + n % 10)

def digitVal (c : Char) : Nat := c.toNat - 48

def isDigitChar (c : Char) : Bool := 48 ≤ c.toNat && c.toNat ≤ 57

def natToCharsAux : Nat → Nat → List Char
  | 0, _ => []
  | fuel + 1, n =>
    if n < 10 then [digitChar n]
    else natToCharsAux fuel (n / 10) ++ [digitChar (n % 10)]

def natToChars (n : Nat) : List Char := natToCharsAux (n + 1) n

def evalDigits (s : List Char) : Nat := s.foldl (fun a c => a * 10 + digitVal c) 0

def charsToNat? (s : List Char) : Option Nat :=
  if s ≠ [] ∧ s.all isDigitChar then some (evalDigits s) else none

def intToChars (i : Int) : List Char :=
  if i < 0 then '-' :: natToChars i.natAbs else natToChars i.toNat

def charsToInt? (s : List Char) : Option Int :=
  match s with
  | [] => none
  | c :: rest => if c = '-' then (charsToNat? rest).map (fun n => -(n : Int))
                 else (charsToNat? (c :: rest)).map (fun n => (n : Int))

/-! ### Separator-joined fields

The Pending Queue persists one record per line with comma-separated fields
(`pending_consumos.csv`; spec section 6). `joinSep`/`splitSep` model the
field encoding of one line. -/

def joinSep (sep : Char) : List (List Char) → List Char
  | [] => []
  | [f] => f
  | f :: g :: fs => f ++ sep :: joinSep sep (g :: fs)

def splitSep (sep : Char) : List Char → List (List Char)
  | [] => [[]]
  | c :: rest =>
    if c = sep then [] :: splitSep sep rest
    else
      match splitSep sep rest with
      | [] => [[c]]
      | f :: fs => (c :: f) :: fs

/-! ### Data model (spec section 3)

The backend holding these components is not in the available sources; each
definition below is modelled from the specification. -/

/-- Modelled from the spec: `CatalogEntry` (spec section 3) — one row of the
authoritative catalog, keyed by barcode. -/

structure CatalogEntry where
  barcode : List Char
  referencia : Option (List Char)
  marca : Option (List Char)
  tipo : Option (List Char)
  precio : Option Int
deriving DecidableEq, Repr

/-- Modelled from the spec: `ConsumptionRecord` (spec section 3) — one
registration event, immutable after creation. -/

structure ConsumptionRecord where
  timestamp : Nat
  barcode : List Char
  referencia : Option (List Char)
  marca : Option (List Char)
  tipo : Option (List Char)
  precio : Option Int
  cantidad : Int
  operario : List Char
  proyecto : Option (List Char)
  isNew : Bool
deriving DecidableEq, Repr

/-- Modelled from the spec: `PendingQueueEntry` (spec section 3) — a
`ConsumptionRecord` plus the sequence number assigned at enqueue time. -/

structure PendingEntry where
  seq : Nat
  record : ConsumptionRecord
deriving DecidableEq, Repr

/-- Modelled from the spec: the result of one write attempt against the
Store Adapter (spec section 6): success, `StoreBusy`, or `StoreUnreadable`. -/

inductive WriteResult where
  | ok
  | busy
  | unreadable
deriving DecidableEq, Repr

/-- Modelled from the spec: the error taxonomy of spec section 7 as far as
the Registration Engine surfaces it (`storeError` stands for the
non-transient `StoreUnreadable`/unexpected-failure case of step 7). -/

inductive RegError where
  | invalidInput
  | unknownBarcodeIncomplete
  | storeError
deriving DecidableEq, Repr

/-- Modelled from the spec: `RegistrationOutcome` (spec section 4.2). -/

structure Outcome where
  success : Bool
  pending : Bool
  error : Option RegError
deriving DecidableEq, Repr

/-- Modelled from the spec: a `register` request (spec section 4.2), the
optional new-entry fields being `marca` and `tipo`. -/

structure RegRequest where
  barcode : List Char
  cantidad : Int
  operario : List Char
  proyecto : Option (List Char)
  marca : Option (List Char)
  tipo : Option (List Char)
deriving DecidableEq, Repr

/-- Modelled from the spec: `SyncReport` (spec section 4.4). -/

structure SyncReport where
  merged : Nat
  failed : Nat
  remaining : Nat
deriving DecidableEq, Repr

/-- Modelled from the spec: the state owned by the core — the authoritative
store's catalog rows and consumption rows, the in-memory Catalog Index, and
the Pending Queue with its next sequence number (spec sections 2 and 3). -/

structure EngineState where
  catalog : List CatalogEntry
  consumos : List ConsumptionRecord
  index : List (List Char × CatalogEntry)
  queue : List PendingEntry
  nextSeq : Nat
deriving DecidableEq, Repr

/-! ### Catalog Index (spec section 4.1) -/

/-- Modelled from the spec: index construction — one entry per catalog row,
keyed by the normalized barcode (spec section 4.1). -/

def buildIndex (cat : List CatalogEntry) : List (List Char × CatalogEntry) :=
  cat.map (fun e => (normalizeChars e.barcode, e))

def findEntry : List (List Char × CatalogEntry) → List Char → Option CatalogEntry
  | [], _ => none
  | (k, e) :: rest, key => if k = key then some e else findEntry rest key

/-- Modelled from the spec: `lookup(barcode)` — the probe is normalized
identically to the stored keys (spec section 4.1). -/

def lookupIndex (idx : List (List Char × CatalogEntry)) (b : List Char) :
    Option CatalogEntry :=
  findEntry idx (normalizeChars b)

/-! ### Registration Engine (spec section 4.2) -/

def pendienteMark : List Char := "PENDIENTE".data

/-- Modelled from the spec: the record built for a barcode found in the
Catalog Index — fields copied from the entry, `isNew := false`
(spec section 4.2, step 3). -/

def mkRecordKnown (now : Nat) (req : RegRequest) (e : CatalogEntry) : ConsumptionRecord :=
  { timestamp := now, barcode := normalizeChars req.barcode,
    referencia := e.referencia, marca := e.marca, tipo := e.tipo, precio := e.precio,
    cantidad := req.cantidad, operario := req.operario, proyecto := req.proyecto,
    isNew := false }

/-- Modelled from the spec: the record built for an unknown barcode with the
caller-supplied `marca`, `tipo` defaulting to the sentinel "PENDIENTE", and
`isNew := true` (spec section 4.2, steps 2-3). -/

def mkRecordNew (now : Nat) (req : RegRequest) (m : List Char) : ConsumptionRecord :=
  { timestamp := now, barcode := normalizeChars req.barcode,
    referencia := none, marca := some m, tipo := some (req.tipo.getD pendienteMark),
    precio := none, cantidad := req.cantidad, operario := req.operario,
    proyecto := req.proyecto, isNew := true }

/-- Modelled from the spec: steps 1-3 of `register` — input validation
(`cantidad ≥ 1`, `operario` non-empty) and barcode resolution
(spec section 4.2). -/

def resolve (st : EngineState) (now : Nat) (req : RegRequest) :
    Except RegError ConsumptionRecord :=
  if req.cantidad < 1 ∨ trimChars req.operario = [] then .error .invalidInput
  else
    match lookupIndex st.index req.barcode with
    | some e => .ok (mkRecordKnown now req e)
    | none =>
      match req.marca with
      | none => .error .unknownBarcodeIncomplete
      | some m => .ok (mkRecordNew now req m)

def entryOfRecord (r : ConsumptionRecord) : CatalogEntry :=
  { barcode := r.barcode, referencia := r.referencia, marca := r.marca,
    tipo := r.tipo, precio := r.precio }

/-- Modelled from the spec: a successful direct write — append the
consumption row and, for a new entry, the catalog row, rebuilding the index
(spec section 4.2, steps 4-5 and side effects). -/

def applyWrite (st : EngineState) (r : ConsumptionRecord) : EngineState :=
  let cat' := if r.isNew then st.catalog ++ [entryOfRecord r] else st.catalog
  { st with
    consumos := st.consumos ++ [r],
    catalog := cat',
    index := if r.isNew then buildIndex cat' else st.index }

/-- Modelled from the spec: `enqueue(record)` — append to the durable log,
assigning the next sequence number (spec sections 4.2 step 6 and 4.3). -/

def enqueueRecord (st : EngineState) (r : ConsumptionRecord) : EngineState :=
  { st with queue := st.queue ++ [⟨st.nextSeq, r⟩], nextSeq := st.nextSeq + 1 }

/-- Modelled from the spec: `register` (spec section 4.2); `wr` is the Store
Adapter's answer to the direct-write attempt of step 4. -/

def register (st : EngineState) (now : Nat) (wr : WriteResult) (req : RegRequest) :
    EngineState × Outcome :=
  match resolve st now req with
  | .error e => (st, ⟨false, false, some e⟩)
  | .ok r =>
    match wr with
    | .ok => (applyWrite st r, ⟨true, false, none⟩)
    | .busy => (enqueueRecord st r, ⟨true, true, none⟩)
    | .unreadable => (st, ⟨false, false, some .storeError⟩)

/-! ### Reconciliation Process (spec section 4.4) -/

/-- Modelled from the spec: the drain loop of `sync()` — ascending order,
remove after each successful write, stop on `StoreBusy`, count and keep a
non-transiently failing entry while continuing (spec section 4.4).  `kept`
accumulates the entries skipped as failed. -/

def syncGo (wr : ConsumptionRecord → WriteResult) :
    List PendingEntry → EngineState → Nat → Nat → List PendingEntry →
    EngineState × SyncReport
  | [], st, m, f, kept => ({ st with queue := kept }, ⟨m, f, kept.length⟩)
  | e :: rest, st, m, f, kept =>
    match wr e.record with
    | .ok => syncGo wr rest (applyWrite st e.record) (m + 1) f kept
    | .busy => ({ st with queue := kept ++ e :: rest }, ⟨m, f, (kept ++ e :: rest).length⟩)
    | .unreadable => syncGo wr rest st m (f + 1) (kept ++ [e])

/-- Modelled from the spec: `sync()` (spec section 4.4); `wr` gives the
Store Adapter's answer for each entry's write attempt. -/

def sync (st : EngineState) (wr : ConsumptionRecord → WriteResult) :
    EngineState × SyncReport :=
  syncGo wr st.queue { st with queue := [] } 0 0 []

def applyWrites (st : EngineState) (q : List PendingEntry) : EngineState :=
  q.foldl (fun s e => applyWrite s e.record) st

/-! ### Pending Queue persisted form (spec section 6)

Modelled from the spec: "the Pending Queue is a flat, append-only record
log on durable storage, one record per line/entry, fields: sequence,
timestamp, barcode, referencia, marca, tipo, precio, cantidad, operario,
proyecto, isNew-flag".  A "file" is the list of its lines; a line is the
comma-joined field list (`pending_consumos.csv`).  An absent optional field
is encoded as the empty field, as the spec fixes no escaping mechanism. -/

def encodeOptChars (o : Option (List Char)) : List Char := o.getD []

def decodeOptChars (f : List Char) : Option (List Char) :=
  if f = [] then none else some f

def encodeOptInt (o : Option Int) : List Char :=
  match o with
  | none => []
  | some i => intToChars i

def decodeOptInt (f : List Char) : Option (Option Int) :=
  if f = [] then some none else (charsToInt? f).map some

def encodeBool (b : Bool) : List Char := if b then ['1'] else ['0']

def decodeBool (f : List Char) : Option Bool :=
  if f = ['1'] then some true else if f = ['0'] then some false else none

/-- Modelled from the spec: one line of the pending log, the fields in the
order fixed by spec section 6. -/

def serializeEntry (e : PendingEntry) : List Char :=
  joinSep ','
    [natToChars e.seq, natToChars e.record.timestamp, e.record.barcode,
     encodeOptChars e.record.referencia, encodeOptChars e.record.marca,
     encodeOptChars e.record.tipo, encodeOptInt e.record.precio,
     intToChars e.record.cantidad, e.record.operario,
     encodeOptChars e.record.proyecto, encodeBool e.record.isNew]

/-- Modelled from the spec: re-reading one line of the pending log. -/

def parseEntry (line : List Char) : Option PendingEntry :=
  match splitSep ',' line with
  | [s, t, b, rf, m, tp, pr, c, op, py, nw] =>
    match charsToNat? s, charsToNat? t, decodeOptInt pr, charsToInt? c, decodeBool nw with
    | some seq, some ts, some prec, some cant, some inew =>
      some ⟨seq, ⟨ts, b, decodeOptChars rf, decodeOptChars m, decodeOptChars tp,
                  prec, cant, op, decodeOptChars py, inew⟩⟩
    | _, _, _, _, _ => none
  | _ => none

/-- Modelled from the spec: re-reading the whole persisted queue after a
process restart. -/

def readQueue : List (List Char) → Option (List PendingEntry)
  | [] => some []
  | l :: ls =>
    match parseEntry l, readQueue ls with
    | some e, some es => some (e :: es)
    | _, _ => none

/-- A persistable text field: it does not contain the field separator. -/

@[reducible]

def fieldOk (f : List Char) : Prop := ',' ∉ f

/-- A persistable optional text field: absent, or non-empty without the
separator (the empty field encodes absence). -/

@[reducible]

def optFieldOk : Option (List Char) → Prop
  | none => True
  | some f => f ≠ [] ∧ ',' ∉ f

/-- An entry the flat log can represent faithfully. -/

@[reducible]

def entryWF (e : PendingEntry) : Prop :=
  fieldOk e.record.barcode ∧ optFieldOk e.record.referencia ∧
  optFieldOk e.record.marca ∧ optFieldOk e.record.tipo ∧
  fieldOk e.record.operario ∧ optFieldOk e.record.proyecto

instance (f : List Char) : Decidable (fieldOk f) := by
  unfold fieldOk
  infer_instance

instance : (o : Option (List Char)) → Decidable (optFieldOk o)
  | none => isTrue trivial
  | some _ => instDecidableAnd

instance (e : PendingEntry) : Decidable (entryWF e) := by
  unfold entryWF
  exact instDecidableAnd

/-! ### Facts about the drain loop -/

/-! ### Frontend: quantity handling and request payloads

Embedded from `frontend/src/app/page.tsx`.  JavaScript `parseInt` on the
value of a number input is modelled by `jsParseInt` (leading whitespace
skipped, optional sign, leading decimal digits, `NaN` — here `none` — when
no digit follows); `x || 1` maps `NaN` and `0` to `1`. -/

def leadingNat (s : List Char) : Option Nat :=
  if s.takeWhile isDigitChar = [] then none
  else some (evalDigits (s.takeWhile isDigitChar))

def jsParseIntChars : List Char → Option Int
  | '-' :: rest => (leadingNat rest).map (fun n => -(n : Int))
  | '+' :: rest => (leadingNat rest).map (fun n => (n : Int))
  | s => (leadingNat s).map (fun n => (n : Int))

def jsParseInt (s : String) : Option Int := jsParseIntChars (trimLeftChars s.data)

def orOne (x : Option Int) : Int :=
  match x with
  | none => 1
  | some n => if n = 0 then 1 else n

/-- `page.tsx`, known-barcode form: `setCantidad(Math.max(1, parseInt(e.target.value) || 1))`. -/

def knownCantidadUpdate (v : String) : Int := max 1 (orOne (jsParseInt v))

/-- `page.tsx`, new-barcode form: `setCantidad(parseInt(e.target.value) || 1)`. -/

def newCantidadUpdate (v : String) : Int := orOne (jsParseInt v)

/-- `page.tsx`: the `FresaData` interface. -/

structure FresaData where
  barcode : String
  referencia : Option String
  marca : Option String
  tipo : Option String
  precio : Option Int
deriving DecidableEq, Repr

/-- `page.tsx`: the component state relevant to quantity and payload
construction (`cantidad`, `fresa`, `isNewFresaMode`, `newFresaData`). -/

structure PageState where
  cantidad : Int
  fresa : Option FresaData
  isNewFresaMode : Bool
  newBarcode : Option String
  newMarca : Option String
  newTipo : Option String
deriving DecidableEq, Repr

def initPageState : PageState := ⟨1, none, false, none, none, none⟩

inductive PageEvent where
  | lookupFound (f : FresaData)
  | lookupNotFound (code : String)
  | editKnownCantidad (v : String)
  | editNewCantidad (v : String)
  | editMarca (v : String)
  | editTipo (v : String)
  | reset
deriving DecidableEq, Repr

def stringUpper (s : String) : String := String.mk (upperChars s.data)

def trimString (s : String) : String := String.mk (trimChars s.data)

/-- One state transition of the scan page: `lookupBarcode`'s found and
not-found branches, the two quantity `onChange` handlers (each only
reachable while its form is rendered), the `newFresaData` field setters,
and `resetForm`.  `lookupBarcode` does not touch `cantidad`. -/

def pageStep (st : PageState) (ev : PageEvent) : PageState :=
  match ev with
  | .lookupFound f => { st with fresa := some f, isNewFresaMode := false }
  | .lookupNotFound code =>
    { st with
      fresa := none,
      isNewFresaMode := true,
      newBarcode := some (stringUpper code),
      newMarca := none,
      newTipo := none }
  | .editKnownCantidad v =>
    if st.fresa.isSome then { st with cantidad := knownCantidadUpdate v } else st
  | .editNewCantidad v =>
    if st.isNewFresaMode then { st with cantidad := newCantidadUpdate v } else st
  | .editMarca v =>
    if st.isNewFresaMode then { st with newMarca := some v } else st
  | .editTipo v =>
    if st.isNewFresaMode then { st with newTipo := some v } else st
  | .reset => initPageState

def runPage (evs : List PageEvent) : PageState := evs.foldl pageStep initPageState

/-- The body of a POST to `/consumo`. -/

structure ConsumoPayload where
  barcode : String
  cantidad : Int
  operario : String
  proyecto : Option String
  marca : Option String
  tipo : Option String
deriving DecidableEq, Repr

/-- JavaScript truthiness of an optional string state field. -/

def strTruthy : Option String → Bool
  | none => false
  | some s => s != ""

/-- `page.tsx` `registerConsumo`: guard `if (!fresa || !operario.trim())`,
then POST `{barcode: fresa.barcode, cantidad, operario: operario.trim(),
proyecto: proyecto.trim() || null}`. -/

def registerConsumoPayload (st : PageState) (operario proyecto : String) :
    Option ConsumoPayload :=
  match st.fresa with
  | none => none
  | some f =>
    if trimString operario = "" then none
    else
      some { barcode := f.barcode, cantidad := st.cantidad,
             operario := trimString operario,
             proyecto := if trimString proyecto = "" then none else some (trimString proyecto),
             marca := none, tipo := none }

/-- `page.tsx` `saveNewFresa`: guards `if (!newFresaData.barcode ||
!newFresaData.marca)` and `if (!operario.trim())`, then POST
`{barcode, cantidad, operario: operario.trim(), proyecto: proyecto.trim()
|| null, marca: newFresaData.marca, tipo: newFresaData.tipo || 'PENDIENTE'}`. -/

def saveNewFresaPayload (st : PageState) (operario proyecto : String) :
    Option ConsumoPayload :=
  if !strTruthy st.newBarcode || !strTruthy st.newMarca then none
  else if trimString operario = "" then none
  else
    some { barcode := st.newBarcode.getD "", cantidad := st.cantidad,
           operario := trimString operario,
           proyecto := if trimString proyecto = "" then none else some (trimString proyecto),
           marca := st.newMarca,
           tipo := if strTruthy st.newTipo then st.newTipo else some "PENDIENTE" }

/-! ### Frontend: API client

Embedded from `frontend/src/lib/api.ts`.  An HTTP response is abstracted
as its `ok` flag, its status code, and the result of parsing its body as
JSON (`none` when the body is not valid JSON).  Property access `x.detail`
on the parsed body follows JavaScript semantics: a lookup on an object,
`undefined` on primitives and arrays, a `TypeError` on `null`. -/

inductive Json where
  | str (s : String)
  | num (n : Int)
  | bool (b : Bool)
  | null
  | arr (elems : List Json)
  | obj (fields : List (String × Json))

structure FetchResponse where
  ok : Bool
  status : Nat
  body : Option Json

/-- Outcome of an `apiGet`/`apiPost` call: a returned value, a thrown
`Error` with the given message, a JSON parse failure propagated from
`response.json()`, or the `TypeError` raised by `null.detail`. -/

inductive ApiOutcome where
  | ret (j : Json)
  | throwMsg (msg : String)
  | parseFail
  | typeFail

def getField : List (String × Json) → String → Option Json
  | [], _ => none
  | (k, v) :: rest, key => if k = key then some v else getField rest key

def jsDetail : Json → Except Unit (Option Json)
  | .null => .error ()
  | .obj fs => .ok (getField fs "detail")
  | _ => .ok none

def jsTruthy : Json → Bool
  | .str s => s != ""
  | .num n => n != 0
  | .bool b => b
  | .null => false
  | .arr _ => true
  | .obj _ => true

mutual

def jsToString : Json → String
  | .str s => s
  | .num n => toString n
  | .bool b => if b then "true" else "false"
  | .null => "null"
  | .arr xs => jsArrToString xs
  | .obj _ => "[object Object]"

def jsArrToString : List Json → String
  | [] => ""
  | [x] => jsElemToString x
  | x :: y :: rest => jsElemToString x ++ "," ++ jsArrToString (y :: rest)

def jsElemToString : Json → String
  | .null => ""
  | .str s => s
  | .num n => toString n
  | .bool b => if b then "true" else "false"
  | .arr xs => jsArrToString xs
  | .obj _ => "[object Object]"

end

def statusMsg (status : Nat) : String := "API Error: " ++ toString status

/-- The value of `error` in `apiPost`'s failure path:
`await response.json().catch(() => ({}))`. -/

def errBody (resp : FetchResponse) : Json :=
  match resp.body with
  | some j => j
  | none => .obj []

/-- `api.ts` `apiPost`: return the parsed body on an ok response; otherwise
read the body (`.catch(() => ({}))` turns an unparseable body into `{}`)
and throw `new Error(error.detail || "API Error: <status>")`. -/

def apiPost (resp : FetchResponse) : ApiOutcome :=
  if resp.ok then
    match resp.body with
    | some j => .ret j
    | none => .parseFail
  else
    match jsDetail (errBody resp) with
    | .error _ => .typeFail
    | .ok none => .throwMsg (statusMsg resp.status)
    | .ok (some v) =>
      if jsTruthy v then .throwMsg (jsToString v) else .throwMsg (statusMsg resp.status)

/-- `api.ts` `apiGet`: throw `Error("API Error: <status>")` on a non-ok
response, otherwise return the parsed body. -/

def apiGet (resp : FetchResponse) : ApiOutcome :=
  if resp.ok then
    match resp.body with
    | some j => .ret j
    | none => .parseFail
  else .throwMsg (statusMsg resp.status)

/-! ### Behaviour of `resolve` and `register` -/

/-! ### Concrete fixtures -/

def stEmpty : EngineState :=
  { catalog := [], consumos := [], index := [], queue := [], nextSeq := 0 }

def reqNew : RegRequest :=
  { barcode := "XYZ999".data, cantidad := 2, operario := "Juan".data,
    proyecto := none, marca := some "MITSUBISHI".data, tipo := none }

def reqBad : RegRequest :=
  { barcode := "ABC123".data, cantidad := 0, operario := "Juan".data,
    proyecto := none, marca := none, tipo := none }

def recR1 : ConsumptionRecord :=
  { timestamp := 1, barcode := "ABC123".data, referencia := none,
    marca := some "MITSUBISHI".data, tipo := none, precio := some 10,
    cantidad := 2, operario := "Juan".data, proyecto := none, isNew := false }

def recR2 : ConsumptionRecord :=
  { recR1 with timestamp := 2, cantidad := 1, isNew := true }

def stTwo : EngineState :=
  { catalog := [], consumos := [], index := [],
    queue := [⟨1, recR1⟩, ⟨2, recR2⟩], nextSeq := 3 }

def wrAllOk : ConsumptionRecord → WriteResult := fun _ => .ok

def qTwo : List PendingEntry := [⟨1, recR1⟩, ⟨2, recR2⟩]

def entryABC : CatalogEntry :=
  { barcode := "abc123".data, referencia := some "R-1".data,
    marca := some "MITSUBISHI".data, tipo := some "PB05".data, precio := some 10 }

def fresaABC : FresaData :=
  { barcode := "ABC123", referencia := none, marca := some "MITSUBISHI",
    tipo := none, precio := some 10 }

def contaminatedTrace : List PageEvent :=
  [.lookupNotFound "XYZ999", .editNewCantidad "-5", .lookupFound fresaABC]

def newFresaTrace : List PageEvent :=
  [.lookupNotFound "XYZ999", .editMarca "MITSUBISHI", .editNewCantidad "-5"]

def respDetailEmpty : FetchResponse :=
  { ok := false, status := 404, body := some (.obj [("detail", .str "")]) }

def respDetailBoom : FetchResponse :=
  { ok := false, status := 500, body := some (.obj [("detail", .str "boom")]) }

/-! ### Frontend quantity handling (claim C9) -/

/-! ### API client error translation (claim C10) -/

/-! ### Witnesses for the theorems with hypotheses -/

/-! ## Theorems -/

theorem char_toNat_ofNat (n : Nat) (h : n < 0xD800) : (Char.ofNat n).toNat = n := by
  have hv : n.isValidChar := Or.inl h
  rw [Char.ofNat, dif_pos hv]
  simp [Char.toNat, Char.ofNatAux, UInt32.toNat, BitVec.toNat_ofNatLt]

theorem upperChar_toNat_of_lower (c : Char) (h1 : 97 ≤ c.toNat) (h2 : c.toNat ≤ 122) :
    (upperChar c).toNat = c.toNat - 32 := by
  unfold upperChar
  rw [if_pos (by simp [h1, h2])]
  exact char_toNat_ofNat _ (by omega)

theorem upperChar_of_not_lower (c : Char) (h : ¬(97 ≤ c.toNat ∧ c.toNat ≤ 122)) :
    upperChar c = c := by
  unfold upperChar
  rw [if_neg]
  simpa using h

theorem isSpaceChar_upperChar (c : Char) : isSpaceChar (upperChar c) = isSpaceChar c := by
  by_cases h : 97 ≤ c.toNat ∧ c.toNat ≤ 122
  · have ht := upperChar_toNat_of_lower c h.1 h.2
    have h1 := h.1
    have h2 := h.2
    have hl : isSpaceChar (upperChar c) = false := by
      unfold isSpaceChar
      rw [ht]
      simp only [Bool.or_eq_false_iff, decide_eq_false_iff_not]
      omega
    have hr : isSpaceChar c = false := by
      unfold isSpaceChar
      simp only [Bool.or_eq_false_iff, decide_eq_false_iff_not]
      omega
    rw [hl, hr]
  · rw [upperChar_of_not_lower c h]

theorem dropWhile_upperChars (s : List Char) :
    (upperChars s).dropWhile isSpaceChar = upperChars (s.dropWhile isSpaceChar) := by
  induction s with
  | nil => rfl
  | cons c rest ih =>
    simp only [upperChars, List.map_cons, List.dropWhile_cons, isSpaceChar_upperChar]
    by_cases h : isSpaceChar c
    · simpa [h] using ih
    · simp [h, upperChars]

theorem trimLeftChars_upperChars (s : List Char) :
    trimLeftChars (upperChars s) = upperChars (trimLeftChars s) :=
  dropWhile_upperChars s

theorem trimRightChars_upperChars (s : List Char) :
    trimRightChars (upperChars s) = upperChars (trimRightChars s) := by
  have h := dropWhile_upperChars s.reverse
  unfold upperChars at h
  unfold trimRightChars upperChars
  rw [← List.map_reverse, h, List.map_reverse]

theorem trimChars_upperChars (s : List Char) :
    trimChars (upperChars s) = upperChars (trimChars s) := by
  unfold trimChars
  rw [trimLeftChars_upperChars, trimRightChars_upperChars]

theorem trimLeftChars_space_append (ws s : List Char) (h : ∀ c ∈ ws, isSpaceChar c) :
    trimLeftChars (ws ++ s) = trimLeftChars s := by
  induction ws with
  | nil => rfl
  | cons c rest ih =>
    simp only [List.cons_append, trimLeftChars, List.dropWhile_cons]
    rw [h c (List.mem_cons_self c rest)]
    exact ih fun x hx => h x (List.mem_cons_of_mem c hx)

theorem trimRightChars_append_space (s ws : List Char) (h : ∀ c ∈ ws, isSpaceChar c) :
    trimRightChars (s ++ ws) = trimRightChars s := by
  unfold trimRightChars
  rw [List.reverse_append]
  have hdw := trimLeftChars_space_append ws.reverse s.reverse
    (fun c hc => h c (List.mem_reverse.mp hc))
  unfold trimLeftChars at hdw
  rw [hdw]

theorem trimLeftChars_append_cases (t ws : List Char) :
    trimLeftChars (t ++ ws) =
      (if trimLeftChars t = [] then trimLeftChars ws else trimLeftChars t ++ ws) := by
  induction t with
  | nil => simp [trimLeftChars]
  | cons c rest ih =>
    simp only [List.cons_append, trimLeftChars, List.dropWhile_cons] at *
    by_cases h : isSpaceChar c
    · simpa [h] using ih
    · simp [h]

theorem trimRightChars_nil : trimRightChars [] = [] := rfl

theorem trimChars_pad (ws1 s ws2 : List Char)
    (h1 : ∀ c ∈ ws1, isSpaceChar c) (h2 : ∀ c ∈ ws2, isSpaceChar c) :
    trimChars (ws1 ++ s ++ ws2) = trimChars s := by
  unfold trimChars
  rw [List.append_assoc, trimLeftChars_space_append ws1 (s ++ ws2) h1]
  rw [trimLeftChars_append_cases s ws2]
  by_cases h : trimLeftChars s = []
  · rw [if_pos h, h, trimRightChars_nil]
    have : ∀ t : List Char, (∀ c ∈ t, isSpaceChar c) → trimRightChars (trimLeftChars t) = [] := by
      intro t ht
      have : trimLeftChars (t ++ []) = trimLeftChars [] := trimLeftChars_space_append t [] ht
      simp only [List.append_nil] at this
      rw [this]
      rfl
    exact this ws2 h2
  · rw [if_neg h, trimRightChars_append_space _ ws2 h2]

theorem normalizeChars_pad (ws1 s ws2 : List Char)
    (h1 : ∀ c ∈ ws1, isSpaceChar c) (h2 : ∀ c ∈ ws2, isSpaceChar c) :
    normalizeChars (ws1 ++ s ++ ws2) = normalizeChars s := by
  unfold normalizeChars
  rw [trimChars_pad ws1 s ws2 h1 h2]

theorem normalizeChars_of_upper_eq (b b' : List Char) (h : upperChars b' = upperChars b) :
    normalizeChars b' = normalizeChars b := by
  unfold normalizeChars
  rw [← trimChars_upperChars, ← trimChars_upperChars, h]

theorem digitChar_toNat (n : Nat) : (digitChar n).toNat = 48 + n % 10 := by
  unfold digitChar
  exact char_toNat_ofNat _ (by have := Nat.mod_lt n (show 0 < 10 by omega); omega)

theorem digitVal_digitChar (n : Nat) (h : n < 10) : digitVal (digitChar n) = n := by
  unfold digitVal
  rw [digitChar_toNat]
  omega

theorem isDigitChar_digitChar (n : Nat) : isDigitChar (digitChar n) = true := by
  unfold isDigitChar
  rw [digitChar_toNat]
  have := Nat.mod_lt n (show 0 < 10 by omega)
  simp only [Bool.and_eq_true, decide_eq_true_eq]
  omega

theorem digitChar_ne_of_toNat (n : Nat) (c : Char) (h : c.toNat < 48 ∨ 57 < c.toNat) :
    digitChar n ≠ c := by
  intro he
  have := digitChar_toNat n
  rw [he] at this
  have := Nat.mod_lt n (show 0 < 10 by omega)
  omega

theorem natToCharsAux_spec (fuel : Nat) : ∀ n, n < fuel →
    natToCharsAux fuel n ≠ [] ∧ (natToCharsAux fuel n).all isDigitChar = true ∧
    evalDigits (natToCharsAux fuel n) = n := by
  induction fuel with
  | zero => intro n h; omega
  | succ fuel ih =>
    intro n h
    unfold natToCharsAux
    by_cases h10 : n < 10
    · rw [if_pos h10]
      refine ⟨by simp, by simp [isDigitChar_digitChar], ?_⟩
      simp [evalDigits, digitVal_digitChar n h10]
    · rw [if_neg h10]
      have hdiv : n / 10 < fuel := by
        have := Nat.div_lt_self (show 0 < n by omega) (show 1 < 10 by omega)
        omega
      obtain ⟨hne, hall, hev⟩ := ih (n / 10) hdiv
      refine ⟨by simp, ?_, ?_⟩
      · rw [List.all_append, hall]
        simp [isDigitChar_digitChar]
      · unfold evalDigits
        rw [List.foldl_append]
        unfold evalDigits at hev
        rw [hev]
        simp only [List.foldl_cons, List.foldl_nil]
        rw [digitVal_digitChar (n % 10) (Nat.mod_lt n (by omega))]
        omega

theorem charsToNat?_natToChars (n : Nat) : charsToNat? (natToChars n) = some n := by
  obtain ⟨hne, hall, hev⟩ := natToCharsAux_spec (n + 1) n (by omega)
  unfold charsToNat? natToChars
  rw [if_pos ⟨hne, hall⟩]
  rw [hev]

theorem natToChars_all_digit (n : Nat) : (natToChars n).all isDigitChar = true :=
  (natToCharsAux_spec (n + 1) n (by omega)).2.1

theorem natToChars_ne_nil (n : Nat) : natToChars n ≠ [] :=
  (natToCharsAux_spec (n + 1) n (by omega)).1

theorem not_isDigitChar_of_mem_natToChars (c : Char) (n : Nat) (h : c ∈ natToChars n) :
    isDigitChar c = true := by
  have := natToChars_all_digit n
  rw [List.all_eq_true] at this
  exact this c h

theorem minus_not_digit : isDigitChar '-' = false := by decide

theorem head_natToChars_not_minus (n : Nat) :
    ∀ c rest, natToChars n = c :: rest → c ≠ '-' := by
  intro c rest hn hc
  have hm : c ∈ natToChars n := by rw [hn]; exact List.mem_cons_self c rest
  have := not_isDigitChar_of_mem_natToChars c n hm
  rw [hc] at this
  rw [minus_not_digit] at this
  exact Bool.false_ne_true this

theorem charsToInt?_intToChars (i : Int) : charsToInt? (intToChars i) = some i := by
  unfold intToChars
  by_cases h : i < 0
  · rw [if_pos h]
    simp only [charsToInt?, if_true]
    rw [charsToNat?_natToChars]
    simp only [Option.pure_def, Option.bind_eq_bind, Option.some_bind, Option.map_some',
      Option.some.injEq]
    omega
  · rw [if_neg h]
    obtain ⟨c, rest, hcr⟩ : ∃ c rest, natToChars i.toNat = c :: rest := by
      cases hh : natToChars i.toNat with
      | nil => exact absurd hh (natToChars_ne_nil _)
      | cons c rest => exact ⟨c, rest, rfl⟩
    rw [hcr]
    rw [show charsToInt? (c :: rest)
          = (if c = '-' then (charsToNat? rest).map (fun n => -(n : Int))
             else (charsToNat? (c :: rest)).map (fun n => (n : Int))) from rfl]
    rw [if_neg (head_natToChars_not_minus i.toNat c rest hcr)]
    rw [← hcr, charsToNat?_natToChars]
    simp only [Option.pure_def, Option.bind_eq_bind, Option.some_bind, Option.map_some',
      Option.some.injEq]
    omega

theorem intToChars_ne_nil (i : Int) : intToChars i ≠ [] := by
  unfold intToChars
  by_cases h : i < 0
  · rw [if_pos h]; simp
  · rw [if_neg h]; exact natToChars_ne_nil _

theorem splitSep_ne_nil (sep : Char) (s : List Char) : splitSep sep s ≠ [] := by
  induction s with
  | nil => simp [splitSep]
  | cons c rest ih =>
    unfold splitSep
    by_cases h : c = sep
    · simp [h]
    · rw [if_neg h]
      cases hh : splitSep sep rest with
      | nil => simp
      | cons f fs => simp

theorem splitSep_no_sep (sep : Char) (f : List Char) (h : sep ∉ f) :
    splitSep sep f = [f] := by
  induction f with
  | nil => rfl
  | cons c rest ih =>
    unfold splitSep
    rw [if_neg (by intro hc; exact h (hc ▸ List.mem_cons_self c rest))]
    rw [ih (fun hm => h (List.mem_cons_of_mem c hm))]

theorem splitSep_append_sep (sep : Char) (f t : List Char) (h : sep ∉ f) :
    splitSep sep (f ++ sep :: t) = f :: splitSep sep t := by
  induction f with
  | nil => simp [splitSep]
  | cons c rest ih =>
    rw [List.cons_append]
    conv_lhs => simp only [splitSep]
    rw [if_neg (by intro hc; exact h (hc ▸ List.mem_cons_self c rest))]
    rw [ih (fun hm => h (List.mem_cons_of_mem c hm))]

theorem splitSep_joinSep (sep : Char) (fs : List (List Char)) (hne : fs ≠ [])
    (h : ∀ f ∈ fs, sep ∉ f) : splitSep sep (joinSep sep fs) = fs := by
  induction fs with
  | nil => exact absurd rfl hne
  | cons f rest ih =>
    cases rest with
    | nil =>
      unfold joinSep
      exact splitSep_no_sep sep f (h f (List.mem_cons_self f []))
    | cons g gs =>
      unfold joinSep
      rw [splitSep_append_sep sep f (joinSep sep (g :: gs))
        (h f (List.mem_cons_self f (g :: gs)))]
      rw [ih (by simp) (fun x hx => h x (List.mem_cons_of_mem f hx))]

theorem comma_not_mem_natToChars (n : Nat) : ',' ∉ natToChars n := by
  intro h
  have := not_isDigitChar_of_mem_natToChars ',' n h
  rw [show isDigitChar ',' = false from by decide] at this
  exact Bool.false_ne_true this

theorem comma_not_mem_intToChars (i : Int) : ',' ∉ intToChars i := by
  unfold intToChars
  by_cases h : i < 0
  · rw [if_pos h]
    intro hm
    rcases List.mem_cons.mp hm with h1 | h2
    · exact absurd h1 (by decide)
    · exact comma_not_mem_natToChars _ h2
  · rw [if_neg h]
    exact comma_not_mem_natToChars _

theorem comma_not_mem_encodeOptChars (o : Option (List Char)) (h : optFieldOk o) :
    ',' ∉ encodeOptChars o := by
  cases o with
  | none => simp [encodeOptChars]
  | some f => exact h.2

theorem comma_not_mem_encodeOptInt (o : Option Int) : ',' ∉ encodeOptInt o := by
  cases o with
  | none => simp [encodeOptInt]
  | some i => exact comma_not_mem_intToChars i

theorem comma_not_mem_encodeBool (b : Bool) : ',' ∉ encodeBool b := by
  cases b <;> simp [encodeBool]

theorem decodeOptChars_encodeOptChars (o : Option (List Char)) (h : optFieldOk o) :
    decodeOptChars (encodeOptChars o) = o := by
  cases o with
  | none => rfl
  | some f =>
    unfold decodeOptChars encodeOptChars
    simp only [Option.getD_some]
    rw [if_neg h.1]

theorem decodeOptInt_encodeOptInt (o : Option Int) :
    decodeOptInt (encodeOptInt o) = some o := by
  cases o with
  | none => rfl
  | some i =>
    unfold decodeOptInt encodeOptInt
    rw [if_neg (intToChars_ne_nil i), charsToInt?_intToChars]
    rfl

theorem decodeBool_encodeBool (b : Bool) : decodeBool (encodeBool b) = some b := by
  cases b <;> rfl

theorem parseEntry_serializeEntry (e : PendingEntry) (h : entryWF e) :
    parseEntry (serializeEntry e) = some e := by
  obtain ⟨hb, hrf, hm, htp, hop, hpy⟩ := h
  unfold parseEntry serializeEntry
  rw [splitSep_joinSep ',' _ (by simp) ?hsep]
  case hsep =>
    intro f hf
    simp only [List.mem_cons, List.not_mem_nil, or_false] at hf
    rcases hf with rfl | rfl | rfl | rfl | rfl | rfl | rfl | rfl | rfl | rfl | rfl
    · exact comma_not_mem_natToChars _
    · exact comma_not_mem_natToChars _
    · exact hb
    · exact comma_not_mem_encodeOptChars _ hrf
    · exact comma_not_mem_encodeOptChars _ hm
    · exact comma_not_mem_encodeOptChars _ htp
    · exact comma_not_mem_encodeOptInt _
    · exact comma_not_mem_intToChars _
    · exact hop
    · exact comma_not_mem_encodeOptChars _ hpy
    · exact comma_not_mem_encodeBool _
  simp only [charsToNat?_natToChars, decodeOptInt_encodeOptInt,
    charsToInt?_intToChars, decodeBool_encodeBool]
  rw [decodeOptChars_encodeOptChars _ hrf, decodeOptChars_encodeOptChars _ hm,
    decodeOptChars_encodeOptChars _ htp, decodeOptChars_encodeOptChars _ hpy]

theorem readQueue_map_serializeEntry (q : List PendingEntry) (h : ∀ e ∈ q, entryWF e) :
    readQueue (q.map serializeEntry) = some q := by
  induction q with
  | nil => rfl
  | cons e rest ih =>
    simp only [List.map_cons, readQueue]
    rw [parseEntry_serializeEntry e (h e (List.mem_cons_self e rest)),
      ih (fun x hx => h x (List.mem_cons_of_mem e hx))]

theorem applyWrite_consumos (st : EngineState) (r : ConsumptionRecord) :
    (applyWrite st r).consumos = st.consumos ++ [r] := rfl

theorem applyWrite_queue (st : EngineState) (r : ConsumptionRecord) :
    (applyWrite st r).queue = st.queue := rfl

theorem applyWrites_consumos (q : List PendingEntry) :
    ∀ st : EngineState, (applyWrites st q).consumos = st.consumos ++ q.map (·.record) := by
  induction q with
  | nil => intro st; simp [applyWrites]
  | cons e rest ih =>
    intro st
    have hstep : applyWrites st (e :: rest) = applyWrites (applyWrite st e.record) rest := rfl
    rw [hstep, ih, applyWrite_consumos]
    simp

theorem applyWrites_queue (q : List PendingEntry) :
    ∀ st : EngineState, (applyWrites st q).queue = st.queue := by
  induction q with
  | nil => intro st; rfl
  | cons e rest ih =>
    intro st
    have hstep : applyWrites st (e :: rest) = applyWrites (applyWrite st e.record) rest := rfl
    rw [hstep, ih, applyWrite_queue]

theorem syncGo_nil (wr : ConsumptionRecord → WriteResult) (st : EngineState)
    (m f : Nat) (kept : List PendingEntry) :
    syncGo wr [] st m f kept = ({ st with queue := kept }, ⟨m, f, kept.length⟩) := rfl

theorem syncGo_all_ok (wr : ConsumptionRecord → WriteResult) (q : List PendingEntry)
    (h : ∀ e ∈ q, wr e.record = .ok) :
    ∀ st m f kept, syncGo wr q st m f kept
      = ({ applyWrites st q with queue := kept }, ⟨m + q.length, f, kept.length⟩) := by
  induction q with
  | nil =>
    intro st m f kept
    rw [syncGo_nil]
    rfl
  | cons e rest ih =>
    intro st m f kept
    have hok : wr e.record = .ok := h e (List.mem_cons_self e rest)
    show (match wr e.record with
      | .ok => syncGo wr rest (applyWrite st e.record) (m + 1) f kept
      | .busy => ({ st with queue := kept ++ e :: rest }, ⟨m, f, (kept ++ e :: rest).length⟩)
      | .unreadable => syncGo wr rest st m (f + 1) (kept ++ [e])) = _
    rw [hok]
    rw [ih (fun x hx => h x (List.mem_cons_of_mem e hx))]
    have hlen : m + 1 + rest.length = m + (e :: rest).length := by
      simp only [List.length_cons]
      omega
    rw [hlen]
    rfl

theorem syncGo_busy_head (wr : ConsumptionRecord → WriteResult) (e : PendingEntry)
    (rest : List PendingEntry) (st : EngineState) (m f : Nat) (kept : List PendingEntry)
    (h : wr e.record = .busy) :
    syncGo wr (e :: rest) st m f kept
      = ({ st with queue := kept ++ e :: rest }, ⟨m, f, (kept ++ e :: rest).length⟩) := by
  show (match wr e.record with
    | .ok => syncGo wr rest (applyWrite st e.record) (m + 1) f kept
    | .busy => ({ st with queue := kept ++ e :: rest }, ⟨m, f, (kept ++ e :: rest).length⟩)
    | .unreadable => syncGo wr rest st m (f + 1) (kept ++ [e])) = _
  rw [h]

theorem syncGo_busy_prefix (wr : ConsumptionRecord → WriteResult)
    (pre : List PendingEntry) (e : PendingEntry) (post : List PendingEntry)
    (hpre : ∀ x ∈ pre, wr x.record = .ok) (hb : wr e.record = .busy) :
    ∀ st m f kept, syncGo wr (pre ++ e :: post) st m f kept
      = ({ applyWrites st pre with queue := kept ++ e :: post },
         ⟨m + pre.length, f, (kept ++ e :: post).length⟩) := by
  induction pre with
  | nil =>
    intro st m f kept
    rw [List.nil_append, syncGo_busy_head wr e post st m f kept hb]
    rfl
  | cons p rest ih =>
    intro st m f kept
    have hok : wr p.record = .ok := hpre p (List.mem_cons_self p rest)
    rw [List.cons_append]
    show (match wr p.record with
      | .ok => syncGo wr (rest ++ e :: post) (applyWrite st p.record) (m + 1) f kept
      | .busy => _
      | .unreadable => _) = _
    rw [hok]
    rw [ih (fun x hx => hpre x (List.mem_cons_of_mem p hx))]
    have hlen : m + 1 + rest.length = m + (p :: rest).length := by
      simp only [List.length_cons]
      omega
    rw [hlen]
    rfl

theorem syncGo_no_busy (wr : ConsumptionRecord → WriteResult) (q : List PendingEntry)
    (h : ∀ x ∈ q, wr x.record ≠ .busy) :
    ∀ st m f kept, syncGo wr q st m f kept
      = ({ applyWrites st (q.filter (fun x => wr x.record == .ok)) with
            queue := kept ++ q.filter (fun x => wr x.record == .unreadable) },
         ⟨m + (q.filter (fun x => wr x.record == .ok)).length,
          f + (q.filter (fun x => wr x.record == .unreadable)).length,
          (kept ++ q.filter (fun x => wr x.record == .unreadable)).length⟩) := by
  induction q with
  | nil =>
    intro st m f kept
    rw [syncGo_nil]
    simp [applyWrites]
  | cons e rest ih =>
    intro st m f kept
    show (match wr e.record with
      | .ok => syncGo wr rest (applyWrite st e.record) (m + 1) f kept
      | .busy => ({ st with queue := kept ++ e :: rest }, ⟨m, f, (kept ++ e :: rest).length⟩)
      | .unreadable => syncGo wr rest st m (f + 1) (kept ++ [e])) = _
    have hrest : ∀ x ∈ rest, wr x.record ≠ .busy :=
      fun x hx => h x (List.mem_cons_of_mem e hx)
    cases hcase : wr e.record with
    | busy => exact absurd hcase (h e (List.mem_cons_self e rest))
    | ok =>
      rw [ih hrest]
      have hf : (e :: rest).filter (fun x => wr x.record == .ok)
          = e :: rest.filter (fun x => wr x.record == .ok) := by
        rw [List.filter_cons]
        rw [if_pos (by simp [hcase])]
      have hf2 : (e :: rest).filter (fun x => wr x.record == .unreadable)
          = rest.filter (fun x => wr x.record == .unreadable) := by
        rw [List.filter_cons]
        rw [if_neg (by simp [hcase])]
      rw [hf, hf2]
      have hstep : applyWrites st (e :: rest.filter (fun x => wr x.record == .ok))
          = applyWrites (applyWrite st e.record) (rest.filter (fun x => wr x.record == .ok)) :=
        rfl
      rw [hstep]
      simp only [List.length_cons]
      have hlen : m + 1 + (rest.filter (fun x => wr x.record == .ok)).length
          = m + ((rest.filter (fun x => wr x.record == .ok)).length + 1) := by omega
      rw [hlen]
    | unreadable =>
      have hred : (match WriteResult.unreadable with
          | WriteResult.ok => syncGo wr rest (applyWrite st e.record) (m + 1) f kept
          | WriteResult.busy =>
            ({ st with queue := kept ++ e :: rest }, ⟨m, f, (kept ++ e :: rest).length⟩)
          | WriteResult.unreadable => syncGo wr rest st m (f + 1) (kept ++ [e]))
          = syncGo wr rest st m (f + 1) (kept ++ [e]) := rfl
      rw [hred, ih hrest]
      have hf : (e :: rest).filter (fun x => wr x.record == .ok)
          = rest.filter (fun x => wr x.record == .ok) := by
        rw [List.filter_cons]
        rw [if_neg (by simp [hcase])]
      have hf2 : (e :: rest).filter (fun x => wr x.record == .unreadable)
          = e :: rest.filter (fun x => wr x.record == .unreadable) := by
        rw [List.filter_cons]
        rw [if_pos (by simp [hcase])]
      rw [hf, hf2]
      have hke : kept ++ [e] ++ rest.filter (fun x => wr x.record == .unreadable)
          = kept ++ e :: rest.filter (fun x => wr x.record == .unreadable) := by simp
      rw [hke]
      have hlen : f + 1 + (rest.filter (fun x => wr x.record == .unreadable)).length
          = f + ((rest.filter (fun x => wr x.record == .unreadable)).length + 1) := by omega
      simp only [List.length_cons]
      rw [hlen]

theorem queue_nil_set (st : EngineState) (h : st.queue = []) :
    { st with queue := ([] : List PendingEntry) } = st := by
  cases st
  simp_all

theorem resolve_invalid (st : EngineState) (now : Nat) (req : RegRequest)
    (h : req.cantidad < 1 ∨ trimChars req.operario = []) :
    resolve st now req = .error .invalidInput := by
  unfold resolve
  rw [if_pos h]

theorem resolve_known (st : EngineState) (now : Nat) (req : RegRequest) (e : CatalogEntry)
    (hv : ¬(req.cantidad < 1 ∨ trimChars req.operario = []))
    (hl : lookupIndex st.index req.barcode = some e) :
    resolve st now req = .ok (mkRecordKnown now req e) := by
  unfold resolve
  rw [if_neg hv, hl]

theorem resolve_unknown_no_marca (st : EngineState) (now : Nat) (req : RegRequest)
    (hv : ¬(req.cantidad < 1 ∨ trimChars req.operario = []))
    (hl : lookupIndex st.index req.barcode = none) (hm : req.marca = none) :
    resolve st now req = .error .unknownBarcodeIncomplete := by
  unfold resolve
  rw [if_neg hv, hl, hm]

theorem resolve_unknown_marca (st : EngineState) (now : Nat) (req : RegRequest)
    (m : List Char) (hv : ¬(req.cantidad < 1 ∨ trimChars req.operario = []))
    (hl : lookupIndex st.index req.barcode = none) (hm : req.marca = some m) :
    resolve st now req = .ok (mkRecordNew now req m) := by
  unfold resolve
  rw [if_neg hv, hl, hm]

theorem resolve_error_cases (st : EngineState) (now : Nat) (req : RegRequest)
    (er : RegError) (h : resolve st now req = .error er) :
    er = .invalidInput ∨ er = .unknownBarcodeIncomplete := by
  unfold resolve at h
  by_cases hv : req.cantidad < 1 ∨ trimChars req.operario = []
  · rw [if_pos hv] at h
    left
    exact (Except.error.injEq _ _ ▸ h).symm ▸ rfl
  · rw [if_neg hv] at h
    cases hl : lookupIndex st.index req.barcode with
    | some e => rw [hl] at h; exact absurd h (by simp)
    | none =>
      rw [hl] at h
      cases hm : req.marca with
      | none => rw [hm] at h; right; cases h; rfl
      | some m => rw [hm] at h; exact absurd h (by simp)

theorem register_of_resolve_error (st : EngineState) (now : Nat) (wr : WriteResult)
    (req : RegRequest) (er : RegError) (h : resolve st now req = .error er) :
    register st now wr req = (st, ⟨false, false, some er⟩) := by
  unfold register
  rw [h]

theorem register_of_resolve_ok (st : EngineState) (now : Nat) (wr : WriteResult)
    (req : RegRequest) (r : ConsumptionRecord) (h : resolve st now req = .ok r) :
    register st now wr req
      = (match wr with
         | .ok => (applyWrite st r, ⟨true, false, none⟩)
         | .busy => (enqueueRecord st r, ⟨true, true, none⟩)
         | .unreadable => (st, ⟨false, false, some .storeError⟩)) := by
  unfold register
  rw [h]

/-- C7: a register call with `cantidad < 1` or an empty or whitespace-only
`operario` fails with `InvalidInput`, leaving both the store and the queue
untouched; with `cantidad ≥ 1` and an operario that is non-empty after
trimming, validation passes (the call never fails with `InvalidInput`). -/
theorem C7_input_validation (st : EngineState) (now : Nat) (wr : WriteResult)
    (req : RegRequest) :
    ((req.cantidad < 1 ∨ trimChars req.operario = []) →
      register st now wr req = (st, ⟨false, false, some .invalidInput⟩)) ∧
    (1 ≤ req.cantidad → trimChars req.operario ≠ [] →
      resolve st now req ≠ .error .invalidInput) := by
  constructor
  · intro h
    exact register_of_resolve_error st now wr req _ (resolve_invalid st now req h)
  · intro h1 h2
    unfold resolve
    rw [if_neg (by push_neg; exact ⟨by omega, h2⟩)]
    cases lookupIndex st.index req.barcode with
    | some e => simp
    | none =>
      cases req.marca with
      | none => simp
      | some m => simp

/-- C6: for a register request whose barcode is not in the Catalog Index
(and whose inputs pass validation): with no `marca` the call fails with
`UnknownBarcodeIncomplete` and records nothing; with a `marca` the
registration resolves to a record with `isNew = true` whose `tipo`
defaults to the sentinel "PENDIENTE" when absent.  On the frontend side,
`saveNewFresa` refuses to build a request without a truthy `marca` and
defaults `tipo` to "PENDIENTE" in the request it builds. -/
theorem C6_unknown_barcode (st : EngineState) (now : Nat) (wr : WriteResult)
    (req : RegRequest) (hlk : lookupIndex st.index req.barcode = none)
    (hval : ¬(req.cantidad < 1 ∨ trimChars req.operario = [])) :
    (req.marca = none →
      register st now wr req = (st, ⟨false, false, some .unknownBarcodeIncomplete⟩)) ∧
    (∀ m, req.marca = some m →
      resolve st now req = .ok (mkRecordNew now req m) ∧
      (mkRecordNew now req m).isNew = true ∧
      (req.tipo = none → (mkRecordNew now req m).tipo = some pendienteMark)) ∧
    (∀ (pst : PageState) (op pj : String), strTruthy pst.newMarca = false →
      saveNewFresaPayload pst op pj = none) ∧
    (∀ (pst : PageState) (op pj : String) (p : ConsumoPayload),
      saveNewFresaPayload pst op pj = some p → strTruthy pst.newTipo = false →
      p.tipo = some "PENDIENTE") := by
  refine ⟨?_, ?_, ?_, ?_⟩
  · intro hm
    exact register_of_resolve_error st now wr req _
      (resolve_unknown_no_marca st now req hval hlk hm)
  · intro m hm
    refine ⟨resolve_unknown_marca st now req m hval hlk hm, rfl, ?_⟩
    intro ht
    unfold mkRecordNew
    rw [ht]
    rfl
  · intro pst op pj hm
    unfold saveNewFresaPayload
    rw [if_pos]
    rw [hm]
    simp
  · intro pst op pj p hp ht
    unfold saveNewFresaPayload at hp
    by_cases hg : (!strTruthy pst.newBarcode || !strTruthy pst.newMarca) = true
    · rw [if_pos hg] at hp
      exact absurd hp (by simp)
    · rw [if_neg hg] at hp
      by_cases hop : trimString op = ""
      · rw [if_pos hop] at hp
        exact absurd hp (by simp)
      · rw [if_neg hop] at hp
        have := Option.some.inj hp
        rw [← this]
        simp only
        rw [ht]
        rfl

/-- C1: when validation passes and the barcode resolves (or the new-entry
`marca` is supplied), a store-busy write failure is absorbed: the record is
appended to the Pending Queue under the next sequence number, the store is
untouched, and the outcome is `success = true, pending = true` with no
error — `StoreBusy` is never surfaced as a failure. -/
theorem C1_busy_enqueues (st : EngineState) (now : Nat) (req : RegRequest)
    (hval : ¬(req.cantidad < 1 ∨ trimChars req.operario = []))
    (hres : lookupIndex st.index req.barcode ≠ none ∨ req.marca ≠ none) :
    ∃ r : ConsumptionRecord,
      (register st now .busy req).1.queue = st.queue ++ [⟨st.nextSeq, r⟩] ∧
      (register st now .busy req).1.consumos = st.consumos ∧
      (register st now .busy req).2 = ⟨true, true, none⟩ := by
  have hok : ∃ r, resolve st now req = .ok r := by
    cases hl : lookupIndex st.index req.barcode with
    | some e => exact ⟨_, resolve_known st now req e hval hl⟩
    | none =>
      cases hm : req.marca with
      | some m => exact ⟨_, resolve_unknown_marca st now req m hval hl hm⟩
      | none =>
        rcases hres with h | h
        · exact absurd hl h
        · exact absurd hm h
  obtain ⟨r, hr⟩ := hok
  refine ⟨r, ?_, ?_, ?_⟩ <;>
    rw [register_of_resolve_ok st now .busy req r hr] <;> rfl

/-- C2: for any register call made under a store condition that is either
writable or busy (the store-busy interleavings of the claim), if the call
does not fail with `InvalidInput` or `UnknownBarcodeIncomplete` then its
event gains exactly one durable representation: appended to the store with
the queue unchanged, or appended to the queue with the store unchanged —
never both, never neither (the total count grows by exactly one). -/
theorem C2_exactly_one_representation (st : EngineState) (now : Nat)
    (req : RegRequest) (wr : WriteResult) (hwr : wr ≠ .unreadable)
    (h1 : (register st now wr req).2.error ≠ some .invalidInput)
    (h2 : (register st now wr req).2.error ≠ some .unknownBarcodeIncomplete) :
    ∃ r : ConsumptionRecord,
      (((register st now wr req).1.consumos = st.consumos ++ [r] ∧
        (register st now wr req).1.queue = st.queue) ∨
       ((register st now wr req).1.consumos = st.consumos ∧
        (register st now wr req).1.queue = st.queue ++ [⟨st.nextSeq, r⟩])) ∧
      (register st now wr req).1.consumos.length + (register st now wr req).1.queue.length
        = st.consumos.length + st.queue.length + 1 := by
  cases hres : resolve st now req with
  | error er =>
    have hreg := register_of_resolve_error st now wr req er hres
    rcases resolve_error_cases st now req er hres with rfl | rfl
    · rw [hreg] at h1
      exact absurd rfl h1
    · rw [hreg] at h2
      exact absurd rfl h2
  | ok r =>
    have hreg := register_of_resolve_ok st now wr req r hres
    cases wr with
    | unreadable => exact absurd rfl hwr
    | ok =>
      refine ⟨r, Or.inl ⟨?_, ?_⟩, ?_⟩ <;>
        · rw [hreg]
          simp [applyWrite_consumos, applyWrite_queue]
          try omega
    | busy =>
      refine ⟨r, Or.inr ⟨?_, ?_⟩, ?_⟩ <;>
        · rw [hreg]
          simp [enqueueRecord]
          try omega

/-- C8: barcode lookup is normalization-invariant — surrounding whitespace
and letter case do not change the result of `lookupIndex`, and the index
built by `buildIndex` keys every entry by the same normalization. -/
theorem C8_lookup_normalization (idx : List (List Char × CatalogEntry))
    (b b' ws1 ws2 : List Char)
    (h1 : ∀ c ∈ ws1, isSpaceChar c) (h2 : ∀ c ∈ ws2, isSpaceChar c)
    (hcase : upperChars b' = upperChars b) :
    lookupIndex idx (ws1 ++ b ++ ws2) = lookupIndex idx b ∧
    lookupIndex idx b' = lookupIndex idx b ∧
    (∀ cat : List CatalogEntry,
      (buildIndex cat).map Prod.fst = cat.map (fun e => normalizeChars e.barcode)) := by
  refine ⟨?_, ?_, ?_⟩
  · unfold lookupIndex
    rw [normalizeChars_pad ws1 b ws2 h1 h2]
  · unfold lookupIndex
    rw [normalizeChars_of_upper_eq b b' hcase]
  · intro cat
    unfold buildIndex
    rw [List.map_map]
    rfl

theorem sync_queue_nil (st : EngineState) (wr : ConsumptionRecord → WriteResult)
    (h : st.queue = []) : sync st wr = (st, ⟨0, 0, 0⟩) := by
  cases st with
  | mk cat cons idx q ns =>
    simp only at h
    subst h
    rfl

/-- C3: `sync()` drains the queue in order.  (a) If the store accepts every
write, the records are appended to the store in queue order, the queue
empties, and the report counts every entry as merged.  (b) If the entries
before some entry `e` succeed and `e` hits `StoreBusy`, exactly the earlier
records are appended, `e` and everything after it stay queued, and the
report shows the remaining count — later entries are not attempted.
(c) Without busy conditions, non-transiently failing entries are counted
as failed and kept while all other entries are merged.  (d) Consequently
for a queue `R1` (seq 1) then `R2` (seq 2) and an accepting store, `R1` is
appended before `R2`. -/
theorem C3_sync_order (st : EngineState) (wr : ConsumptionRecord → WriteResult) :
    ((∀ e ∈ st.queue, wr e.record = .ok) →
      (sync st wr).1.consumos = st.consumos ++ st.queue.map (·.record) ∧
      (sync st wr).1.queue = [] ∧
      (sync st wr).2 = ⟨st.queue.length, 0, 0⟩) ∧
    (∀ pre e post, st.queue = pre ++ e :: post →
      (∀ x ∈ pre, wr x.record = .ok) → wr e.record = .busy →
      (sync st wr).1.consumos = st.consumos ++ pre.map (·.record) ∧
      (sync st wr).1.queue = e :: post ∧
      (sync st wr).2 = ⟨pre.length, 0, post.length + 1⟩) ∧
    ((∀ x ∈ st.queue, wr x.record ≠ .busy) →
      (sync st wr).1.consumos
        = st.consumos ++ (st.queue.filter (fun x => wr x.record == .ok)).map (·.record) ∧
      (sync st wr).1.queue = st.queue.filter (fun x => wr x.record == .unreadable) ∧
      (sync st wr).2.failed = (st.queue.filter (fun x => wr x.record == .unreadable)).length) ∧
    (∀ R1 R2 : ConsumptionRecord, st.queue = [⟨1, R1⟩, ⟨2, R2⟩] →
      (∀ e ∈ st.queue, wr e.record = .ok) →
      (sync st wr).1.consumos = st.consumos ++ [R1, R2]) := by
  have hsync : sync st wr = syncGo wr st.queue { st with queue := [] } 0 0 [] := rfl
  refine ⟨?_, ?_, ?_, ?_⟩
  · intro hall
    rw [hsync, syncGo_all_ok wr st.queue hall]
    refine ⟨?_, rfl, ?_⟩
    · show (applyWrites { st with queue := [] } st.queue).consumos = _
      rw [applyWrites_consumos]
    · simp
  · intro pre e post hq hpre hb
    rw [hsync, hq, syncGo_busy_prefix wr pre e post hpre hb]
    refine ⟨?_, by simp, ?_⟩
    · show (applyWrites { st with queue := [] } pre).consumos = _
      rw [applyWrites_consumos]
    · simp
  · intro hnb
    rw [hsync, syncGo_no_busy wr st.queue hnb]
    refine ⟨?_, by simp, by simp⟩
    show (applyWrites { st with queue := [] } _).consumos = _
    rw [applyWrites_consumos]
  · intro R1 R2 hq hall
    rw [hsync, syncGo_all_ok wr st.queue hall]
    show (applyWrites { st with queue := [] } st.queue).consumos = _
    rw [applyWrites_consumos, hq]
    rfl

/-- C4: `sync()` is idempotent — after a `sync` under a reachable store, a
second `sync` with nothing new enqueued changes nothing and reports
`{merged: 0, failed: 0, remaining: 0}`. -/
theorem C4_sync_idempotent (st : EngineState) (wr : ConsumptionRecord → WriteResult)
    (hwr : ∀ r, wr r = .ok) :
    sync ((sync st wr).1) wr = ((sync st wr).1, ⟨0, 0, 0⟩) := by
  have hall : ∀ e ∈ st.queue, wr e.record = .ok := fun e _ => hwr e.record
  have hq : (sync st wr).1.queue = [] := by
    show (syncGo wr st.queue { st with queue := [] } 0 0 []).1.queue = []
    rw [syncGo_all_ok wr st.queue hall]
  exact sync_queue_nil _ wr hq

/-- C5: the Pending Queue's persisted form round-trips exactly — re-reading
the lines written for the queued entries (after a simulated restart)
reproduces the same entries, with the same field values, sequence numbers
and order, for every queue whose text fields are representable in the flat
comma-separated log. -/
theorem C5_log_roundtrip (q : List PendingEntry) (h : ∀ e ∈ q, entryWF e) :
    readQueue (q.map serializeEntry) = some q :=
  readQueue_map_serializeEntry q h

/-- C9 counterexample: the claim that the `/consumo` request built by
`registerConsumo` always carries `cantidad ≥ 1` regardless of user input is
false — `cantidad` is shared component state that a lookup does not reset,
so after typing "-5" in the unclamped new-barcode quantity field and then
looking up a known barcode, `registerConsumo` posts `cantidad = -5`. -/
theorem C9_counterexample :
    (registerConsumoPayload (runPage contaminatedTrace) "Juan" "").map
        (fun p => p.cantidad) = some (-5) ∧
    ¬(1 ≤ (-5 : Int)) := by
  constructor
  · rfl
  · decide

/-- C9 (amended): every edit through the known-form quantity field is
clamped to at least 1 (and `resetForm` restores 1), while the new-form
field applies only `parseInt(value) || 1` and can produce a non-positive
quantity; because the quantity state is shared between the two forms and
not reset by a lookup, not only `saveNewFresa` but also `registerConsumo`
can post a request with `cantidad ≤ 0` — the ≥ 1 guarantee holds for the
known-form edits themselves, not for every request `registerConsumo`
builds. -/
theorem C9_quantity_clamping :
    (∀ v : String, 1 ≤ knownCantidadUpdate v) ∧
    (∀ (st : PageState) (v : String), st.fresa.isSome = true →
      1 ≤ (pageStep st (.editKnownCantidad v)).cantidad) ∧
    (∀ st : PageState, (pageStep st .reset).cantidad = 1) ∧
    (∃ v : String, newCantidadUpdate v ≤ 0) ∧
    (∃ (evs : List PageEvent) (op pj : String) (p : ConsumoPayload),
      registerConsumoPayload (runPage evs) op pj = some p ∧ p.cantidad < 1) ∧
    (∃ (evs : List PageEvent) (op pj : String) (p : ConsumoPayload),
      saveNewFresaPayload (runPage evs) op pj = some p ∧ p.cantidad ≤ 0) := by
  refine ⟨?_, ?_, ?_, ?_, ?_, ?_⟩
  · intro v
    exact le_max_left 1 _
  · intro st v h
    have hred : pageStep st (.editKnownCantidad v)
        = (if st.fresa.isSome then { st with cantidad := knownCantidadUpdate v } else st) :=
      rfl
    rw [hred, if_pos h]
    exact le_max_left 1 _
  · intro st
    rfl
  · exact ⟨"-5", by decide⟩
  · refine ⟨contaminatedTrace, "Juan", "",
      { barcode := "ABC123", cantidad := -5, operario := "Juan", proyecto := none,
        marca := none, tipo := none }, ?_, ?_⟩
    · rfl
    · decide
  · refine ⟨newFresaTrace, "Juan", "",
      { barcode := "XYZ999", cantidad := -5, operario := "Juan", proyecto := none,
        marca := some "MITSUBISHI", tipo := some "PENDIENTE" }, ?_, ?_⟩
    · rfl
    · decide

theorem C9_quantity_clamping_witness :
    1 ≤ (pageStep ⟨1, some fresaABC, false, none, none, none⟩
          (.editKnownCantidad "-7")).cantidad :=
  C9_quantity_clamping.2.1 ⟨1, some fresaABC, false, none, none, none⟩ "-7" rfl

/-- C10 counterexample: the claim that a non-ok response whose body parses
as JSON containing a `detail` field yields an Error carrying that detail is
false — `error.detail || "API Error: <status>"` discards a falsy detail, so
a body of `{"detail": ""}` with status 404 produces the message
"API Error: 404", not the empty detail string. -/
theorem C10_counterexample :
    apiPost respDetailEmpty = .throwMsg (statusMsg 404) ∧ statusMsg 404 ≠ "" := by
  constructor
  · rfl
  · decide

/-- C10 (amended): `apiPost` returns the parsed JSON body when the response
is ok (and the body parses); on a non-ok response it throws an Error whose
message is the string coercion of the body's `detail` value when the body
parses as a JSON object with a truthy `detail`, and "API Error: <status>"
when the detail is absent or falsy, when the body is not an object, or when
the body is unparseable (then read as `{}`); the single exception is a body
parsing to JSON `null`, where the property access itself raises a
TypeError.  `apiGet` throws "API Error: <status>" for every non-ok response
and returns the parsed body otherwise. -/
theorem C10_api_error_translation :
    (∀ (resp : FetchResponse) (j : Json), resp.ok = true → resp.body = some j →
      apiPost resp = .ret j ∧ apiGet resp = .ret j) ∧
    (∀ (resp : FetchResponse) (fs : List (String × Json)) (v : Json),
      resp.ok = false → resp.body = some (.obj fs) →
      getField fs "detail" = some v → jsTruthy v = true →
      apiPost resp = .throwMsg (jsToString v)) ∧
    (∀ (resp : FetchResponse) (dopt : Option Json), resp.ok = false →
      jsDetail (errBody resp) = .ok dopt →
      (∀ v, dopt = some v → jsTruthy v = false) →
      apiPost resp = .throwMsg (statusMsg resp.status)) ∧
    (∀ resp : FetchResponse, resp.ok = false → resp.body = some .null →
      apiPost resp = .typeFail) ∧
    (∀ resp : FetchResponse, resp.ok = false →
      apiGet resp = .throwMsg (statusMsg resp.status)) := by
  refine ⟨?_, ?_, ?_, ?_, ?_⟩
  · intro resp j hok hbody
    constructor
    · unfold apiPost
      rw [hok, hbody]
      rfl
    · unfold apiGet
      rw [hok, hbody]
      rfl
  · intro resp fs v hok hbody hget htr
    unfold apiPost
    rw [hok]
    have hb : errBody resp = .obj fs := by
      unfold errBody
      rw [hbody]
    rw [if_neg (by simp)]
    rw [hb]
    have hd : jsDetail (.obj fs) = .ok (getField fs "detail") := rfl
    rw [hd, hget]
    have hred : (match Except.ok (ε := Unit) (some v) with
        | .error _ => ApiOutcome.typeFail
        | .ok none => .throwMsg (statusMsg resp.status)
        | .ok (some v) =>
          if jsTruthy v then .throwMsg (jsToString v) else .throwMsg (statusMsg resp.status))
        = (if jsTruthy v then ApiOutcome.throwMsg (jsToString v)
           else .throwMsg (statusMsg resp.status)) := rfl
    rw [hred, if_pos htr]
  · intro resp dopt hok hdet hfalsy
    unfold apiPost
    rw [hok]
    rw [if_neg (by simp)]
    rw [hdet]
    cases dopt with
    | none => rfl
    | some v =>
      have hred : (match Except.ok (ε := Unit) (some v) with
          | .error _ => ApiOutcome.typeFail
          | .ok none => .throwMsg (statusMsg resp.status)
          | .ok (some v) =>
            if jsTruthy v then .throwMsg (jsToString v) else .throwMsg (statusMsg resp.status))
          = (if jsTruthy v then ApiOutcome.throwMsg (jsToString v)
             else .throwMsg (statusMsg resp.status)) := rfl
      rw [hred, if_neg (by rw [hfalsy v rfl]; simp)]
  · intro resp hok hbody
    unfold apiPost
    rw [hok]
    rw [if_neg (by simp)]
    have hb : errBody resp = .null := by
      unfold errBody
      rw [hbody]
    rw [hb]
    rfl
  · intro resp hok
    unfold apiGet
    rw [hok]
    rfl

theorem C10_api_error_translation_witness :
    apiPost respDetailBoom = .throwMsg (jsToString (.str "boom")) :=
  C10_api_error_translation.2.1 respDetailBoom [("detail", .str "boom")]
    (.str "boom") rfl rfl rfl rfl

theorem C1_busy_enqueues_witness :
    ∃ r : ConsumptionRecord,
      (register stEmpty 5 .busy reqNew).1.queue = stEmpty.queue ++ [⟨stEmpty.nextSeq, r⟩] ∧
      (register stEmpty 5 .busy reqNew).1.consumos = stEmpty.consumos ∧
      (register stEmpty 5 .busy reqNew).2 = ⟨true, true, none⟩ :=
  C1_busy_enqueues stEmpty 5 reqNew (by decide) (by decide)

theorem C2_exactly_one_representation_witness :
    ∃ r : ConsumptionRecord,
      (((register stEmpty 7 .ok reqNew).1.consumos = stEmpty.consumos ++ [r] ∧
        (register stEmpty 7 .ok reqNew).1.queue = stEmpty.queue) ∨
       ((register stEmpty 7 .ok reqNew).1.consumos = stEmpty.consumos ∧
        (register stEmpty 7 .ok reqNew).1.queue = stEmpty.queue ++ [⟨stEmpty.nextSeq, r⟩])) ∧
      (register stEmpty 7 .ok reqNew).1.consumos.length
          + (register stEmpty 7 .ok reqNew).1.queue.length
        = stEmpty.consumos.length + stEmpty.queue.length + 1 :=
  C2_exactly_one_representation stEmpty 7 reqNew .ok (by decide) (by decide) (by decide)

theorem C3_sync_order_witness :
    (sync stTwo wrAllOk).1.consumos = stTwo.consumos ++ [recR1, recR2] :=
  (C3_sync_order stTwo wrAllOk).2.2.2 recR1 recR2 rfl (fun _ _ => rfl)

theorem C4_sync_idempotent_witness :
    sync ((sync stTwo wrAllOk).1) wrAllOk = ((sync stTwo wrAllOk).1, ⟨0, 0, 0⟩) :=
  C4_sync_idempotent stTwo wrAllOk (fun _ => rfl)

theorem C5_log_roundtrip_witness :
    readQueue (qTwo.map serializeEntry) = some qTwo :=
  C5_log_roundtrip qTwo (by decide)

theorem C6_unknown_barcode_witness :
    (reqNew.marca = none →
      register stEmpty 3 .ok reqNew = (stEmpty, ⟨false, false, some .unknownBarcodeIncomplete⟩)) ∧
    (∀ m, reqNew.marca = some m →
      resolve stEmpty 3 reqNew = .ok (mkRecordNew 3 reqNew m) ∧
      (mkRecordNew 3 reqNew m).isNew = true ∧
      (reqNew.tipo = none → (mkRecordNew 3 reqNew m).tipo = some pendienteMark)) ∧
    (∀ (pst : PageState) (op pj : String), strTruthy pst.newMarca = false →
      saveNewFresaPayload pst op pj = none) ∧
    (∀ (pst : PageState) (op pj : String) (p : ConsumoPayload),
      saveNewFresaPayload pst op pj = some p → strTruthy pst.newTipo = false →
      p.tipo = some "PENDIENTE") :=
  C6_unknown_barcode stEmpty 3 .ok reqNew rfl (by decide)

theorem C7_input_validation_witness :
    register stEmpty 1 .ok reqBad = (stEmpty, ⟨false, false, some .invalidInput⟩) ∧
    resolve stEmpty 1 reqNew ≠ .error .invalidInput :=
  ⟨(C7_input_validation stEmpty 1 .ok reqBad).1 (by decide),
   (C7_input_validation stEmpty 1 .ok reqNew).2 (by decide) (by decide)⟩

theorem C8_lookup_normalization_witness :
    lookupIndex (buildIndex [entryABC]) ([' '] ++ "abc123".data ++ [' '])
      = lookupIndex (buildIndex [entryABC]) "abc123".data ∧
    lookupIndex (buildIndex [entryABC]) "ABC123".data
      = lookupIndex (buildIndex [entryABC]) "abc123".data ∧
    (∀ cat : List CatalogEntry,
      (buildIndex cat).map Prod.fst = cat.map (fun e => normalizeChars e.barcode)) :=
  C8_lookup_normalization (buildIndex [entryABC]) "abc123".data "ABC123".data
    [' '] [' '] (by decide) (by decide) (by decide)

end Fresas

